import Mathlib

/-!
Verification of the secure-asset-api repository core.

This file gives a shallow embedding, in Lean, of the parts of the
repository that carry real invariants:

* `src/utils/slugify.js` — the slug normalizer;
* `src/models/asset.model.js` — both store backends: the flat-JSON
  document backend and the Firebase RTDB backend (assets collection plus
  slug index, soft delete, listing, update);
* `src/services/github.service.js` — branch resolution, empty-repository
  detection, create-or-update upload, CDN URL assembly;
* `src/controllers/assets.controller.js` — the slug derivation used by
  `registerExisting` and `uploadGithubRegister`, and the
  `uploadGithubRegister` orchestration flow.

JavaScript dynamic values are embedded as follows: a possibly-absent
string field is `Option String` (JS `undefined` and `null` collapse to
`none`, which is faithful because the code only distinguishes them
through truthiness and `??`, both of which treat the two alike here);
string truthiness is "present and non-empty"; `String.prototype.localeCompare`
is modelled as lexicographic comparison of character codes; `sort` is
modelled as a stable insertion sort over the comparator's order, and
Firebase/file I/O as explicit state passing.  The crypto hash and the
random id generator are passed in as parameters since no claim depends
on their values.
-/

/-- JS primitive values, used where the source receives an arbitrary value
(the `verify_hash` input of `normalizeAsset`). -/
inductive JsVal where
  | vBool (b : Bool)
  | vStr (s : String)
  | vNum (n : Int)
  | vNull
  | vUndef
  deriving DecidableEq, Repr

/-- `const toBool = (v) => v === true || v === 'true' || v === 1 || v === '1'`
(asset.model.js, RTDB backend). -/
def toBool : JsVal → Bool
  | .vBool b => b
  | .vStr s => s = "true" || s = "1"
  | .vNum n => n = 1
  | .vNull => false
  | .vUndef => false

/-- JS truthiness of a possibly-absent string: `undefined`, `null` and the
empty string are falsy, every other string is truthy. -/
def strOptTruthy : Option String → Bool
  | some s => s ≠ ""
  | none => false

/-- JS `v || d` for a possibly-absent string `v` and a string default `d`. -/
def jsOrStr (v : Option String) (d : String) : String :=
  match v with
  | some s => if s = "" then d else s
  | none => d

/-- JS `a || b` on two strings (empty string is falsy). -/
def jsOr (a b : String) : String :=
  if a = "" then b else a

/-- JS template interpolation of a possibly-absent string: an absent value
prints as the literal string `"undefined"`. -/
def strOfOpt : Option String → String
  | some s => s
  | none => "undefined"

/-- Lexicographic comparison of character codes; model of the string order
induced by `String.prototype.localeCompare` on the ASCII data (timestamps,
labels, slugs) this repository compares. -/
def strLeL : List Char → List Char → Bool
  | [], _ => true
  | _ :: _, [] => false
  | a :: as, b :: bs =>
    if a.toNat < b.toNat then true
    else if b.toNat < a.toNat then false
    else strLeL as bs

/-- String order on whole strings (see `strLeL`). -/
def strLe (a b : String) : Bool :=
  strLeL a.data b.data

theorem strLeL_total : ∀ x y : List Char, strLeL x y = true ∨ strLeL y x = true := by
  intro x
  induction x with
  | nil => intro y; left; rfl
  | cons a as ih =>
    intro y
    cases y with
    | nil => right; rfl
    | cons b bs =>
      simp only [strLeL]
      rcases Nat.lt_trichotomy a.toNat b.toNat with h | h | h
      · left; simp [h]
      · have h1 : ¬ a.toNat < b.toNat := by omega
        have h2 : ¬ b.toNat < a.toNat := by omega
        simpa [h1, h2] using ih bs
      · right; simp [h]

theorem strLeL_trans : ∀ x y z : List Char,
    strLeL x y = true → strLeL y z = true → strLeL x z = true := by
  intro x
  induction x with
  | nil => intro y z _ _; rfl
  | cons a as ih =>
    intro y z hxy hyz
    cases y with
    | nil => simp [strLeL] at hxy
    | cons b bs =>
      cases z with
      | nil => simp [strLeL] at hyz
      | cons c cs =>
        simp only [strLeL] at hxy hyz ⊢
        rcases Nat.lt_trichotomy a.toNat b.toNat with h1 | h1 | h1 <;>
          rcases Nat.lt_trichotomy b.toNat c.toNat with h2 | h2 | h2
        · simp [show a.toNat < c.toNat by omega]
        · simp [show a.toNat < c.toNat by omega]
        · rw [if_neg (by omega), if_pos (by omega)] at hyz
          exact absurd hyz (by simp)
        · simp [show a.toNat < c.toNat by omega]
        · rw [if_neg (by omega), if_neg (by omega)] at hxy hyz
          rw [if_neg (by omega), if_neg (by omega)]
          exact ih bs cs hxy hyz
        · rw [if_neg (by omega), if_pos (by omega)] at hyz
          exact absurd hyz (by simp)
        · rw [if_neg (by omega), if_pos (by omega)] at hxy
          exact absurd hxy (by simp)
        · rw [if_neg (by omega), if_pos (by omega)] at hxy
          exact absurd hxy (by simp)
        · rw [if_neg (by omega), if_pos (by omega)] at hxy
          exact absurd hxy (by simp)

/-! ## slugify (src/utils/slugify.js)

The source pipeline is: `trim`, `toLowerCase`, then four global regex
replaces: every run of underscores and whitespace becomes a hyphen; every
character outside lowercase letters, digits and hyphen is removed; every
run of two or more hyphens becomes one hyphen; leading and trailing
hyphen runs are removed. -/

/-- The whitespace class `\s` of JS regexes, restricted to the characters
that can appear here (space, tab, line feed, carriage return, vertical
tab, form feed, NBSP), identified by character code. -/
def jsIsSpace (c : Char) : Bool :=
  c.toNat = 32 || c.toNat = 9 || c.toNat = 10 || c.toNat = 13 ||
  c.toNat = 11 || c.toNat = 12 || c.toNat = 160

/-- `String.prototype.trim`: strip whitespace from both ends. -/
def jsTrim (l : List Char) : List Char :=
  ((l.dropWhile jsIsSpace).reverse.dropWhile jsIsSpace).reverse

/-- `String.prototype.toLowerCase` on the ASCII range (the only characters
that survive the later `[^a-z0-9-]` filter). -/
def jsToLower (c : Char) : Char :=
  if 65 ≤ c.toNat ∧ c.toNat ≤ 90 then Char.ofNat (c.toNat + 32) else c

/-- Character class `[_\s]` of the first replace (95 is the underscore). -/
def isSepChar (c : Char) : Bool :=
  c.toNat = 95 || jsIsSpace c

/-- First replace (separator runs to hyphen): each maximal run of
`[_\s]` characters becomes a single hyphen.  The boolean flag records
whether the scanner is inside a separator run whose replacement hyphen
was already emitted. -/
def sepToDash : Bool → List Char → List Char
  | _, [] => []
  | inRun, c :: cs =>
    if isSepChar c then
      if inRun then sepToDash true cs else '-' :: sepToDash true cs
    else c :: sepToDash false cs

/-- Character class `[a-z0-9-]` kept by the second replace. -/
def isSlugChar (c : Char) : Bool :=
  (97 ≤ c.toNat && c.toNat ≤ 122) || (48 ≤ c.toNat && c.toNat ≤ 57) || c = '-'

/-- Third replace (hyphen-run collapse): each run of two or more hyphens
becomes a single hyphen (a lone hyphen is its own one-element run and is
unchanged).  The flag records whether the scanner is inside a hyphen run
whose single output hyphen was already emitted. -/
def dashCollapse : Bool → List Char → List Char
  | _, [] => []
  | inRun, c :: cs =>
    if c = '-' then
      if inRun then dashCollapse true cs else '-' :: dashCollapse true cs
    else c :: dashCollapse false cs

/-- Fourth replace (anchored hyphen strip): remove the leading and the
trailing hyphen run. -/
def stripDash (l : List Char) : List Char :=
  ((l.dropWhile (· = '-')).reverse.dropWhile (· = '-')).reverse

/-- `slugify` on character lists, composing the five steps of the source in
order. -/
def slugifyL (l : List Char) : List Char :=
  stripDash (dashCollapse false
    (List.filter isSlugChar (sepToDash false ((jsTrim l).map jsToLower))))

/-- `slugify` from src/utils/slugify.js. -/
def slugify (s : String) : String :=
  ⟨slugifyL s.data⟩

/-! ## Properties of slugify -/

/-- Adjacent characters are never both hyphens. -/
def noDDRel (a b : Char) : Prop := ¬(a = '-' ∧ b = '-')

theorem mem_dashCollapse {c : Char} : ∀ {flag : Bool} {l : List Char},
    c ∈ dashCollapse flag l → c = '-' ∨ c ∈ l := by
  intro flag l
  induction l generalizing flag with
  | nil => intro h; simp [dashCollapse] at h
  | cons a as ih =>
    intro h
    simp only [dashCollapse] at h
    by_cases ha : a = '-'
    · rw [if_pos ha] at h
      cases flag with
      | true =>
        rcases ih h with h' | h'
        · exact Or.inl h'
        · exact Or.inr (List.mem_cons_of_mem _ h')
      | false =>
        rcases List.mem_cons.mp h with h' | h'
        · exact Or.inl h'
        · rcases ih h' with h'' | h''
          · exact Or.inl h''
          · exact Or.inr (List.mem_cons_of_mem _ h'')
    · rw [if_neg ha] at h
      rcases List.mem_cons.mp h with h' | h'
      · exact Or.inr (h' ▸ List.mem_cons_self a as)
      · rcases ih h' with h'' | h''
        · exact Or.inl h''
        · exact Or.inr (List.mem_cons_of_mem _ h'')

theorem head_dropWhile_not {α : Type} {p : α → Bool} :
    ∀ {l : List α} {c : α}, (l.dropWhile p).head? = some c → p c = false := by
  intro l
  induction l with
  | nil => intro c h; simp [List.dropWhile] at h
  | cons a as ih =>
    intro c h
    by_cases hp : p a
    · rw [List.dropWhile_cons_of_pos hp] at h
      exact ih h
    · rw [List.dropWhile_cons_of_neg hp] at h
      simp only [List.head?_cons, Option.some.injEq] at h
      subst h
      exact Bool.eq_false_iff.mpr hp

theorem dropWhile_eq_self_of {α : Type} {p : α → Bool} {l : List α}
    (h : ∀ c, l.head? = some c → p c = false) : l.dropWhile p = l := by
  cases l with
  | nil => rfl
  | cons a as =>
    have := h a (by rfl)
    rw [List.dropWhile_cons_of_neg (by simp [this])]

theorem stripDash_subset {m : List Char} : ∀ c ∈ stripDash m, c ∈ m := by
  intro c hc
  unfold stripDash at hc
  rw [List.mem_reverse] at hc
  have hc2 := (List.dropWhile_suffix (l := (m.dropWhile (· = '-')).reverse) (· = '-')).subset hc
  rw [List.mem_reverse] at hc2
  exact (List.dropWhile_suffix (l := m) (· = '-')).subset hc2

theorem prefix_head?_eq {α : Type} {w m : List α} {c : α}
    (hp : w <+: m) (hw : w.head? = some c) : m.head? = some c := by
  rcases hp with ⟨t, rfl⟩
  cases w with
  | nil => simp at hw
  | cons a as => simpa using hw

theorem dropEnd_prefix {p : Char → Bool} {l : List Char} :
    (l.reverse.dropWhile p).reverse <+: l := by
  refine ⟨(l.reverse.takeWhile p).reverse, ?_⟩
  rw [← List.reverse_append, List.takeWhile_append_dropWhile, List.reverse_reverse]

theorem dashCollapse_false_cons (c : Char) (cs : List Char) :
    dashCollapse false (c :: cs) =
      if c = '-' then '-' :: dashCollapse true cs else c :: dashCollapse false cs := by
  by_cases h : c = '-' <;> simp [dashCollapse, h]

theorem dashCollapse_true_cons (c : Char) (cs : List Char) :
    dashCollapse true (c :: cs) =
      if c = '-' then dashCollapse true cs else c :: dashCollapse false cs := by
  by_cases h : c = '-' <;> simp [dashCollapse, h]

/-- The three invariants of `dashCollapse`: both modes produce lists with no
adjacent pair of hyphens, and in skipping mode the output never starts with
a hyphen. -/
theorem dashCollapse_spec : ∀ l : List Char,
    List.Chain' noDDRel (dashCollapse false l) ∧
    List.Chain' noDDRel (dashCollapse true l) ∧
    (∀ c, (dashCollapse true l).head? = some c → c ≠ '-') := by
  intro l
  induction l with
  | nil => refine ⟨List.chain'_nil, List.chain'_nil, ?_⟩; intro c h; simp [dashCollapse] at h
  | cons a as ih =>
    obtain ⟨ih1, ih2, ih3⟩ := ih
    by_cases ha : a = '-'
    · refine ⟨?_, ?_, ?_⟩
      · rw [dashCollapse_false_cons, if_pos ha, List.chain'_cons']
        refine ⟨?_, ih2⟩
        intro y hy
        have : y ≠ '-' := ih3 y (by simpa using hy)
        exact fun hcon => this hcon.2
      · rw [dashCollapse_true_cons, if_pos ha]
        exact ih2
      · intro c h
        rw [dashCollapse_true_cons, if_pos ha] at h
        exact ih3 c h
    · refine ⟨?_, ?_, ?_⟩
      · rw [dashCollapse_false_cons, if_neg ha, List.chain'_cons']
        exact ⟨fun y _ => fun hcon => ha hcon.1, ih1⟩
      · rw [dashCollapse_true_cons, if_neg ha, List.chain'_cons']
        exact ⟨fun y _ => fun hcon => ha hcon.1, ih1⟩
      · intro c h
        rw [dashCollapse_true_cons, if_neg ha] at h
        simp only [List.head?_cons, Option.some.injEq] at h
        exact h ▸ ha

/-- On a list with no adjacent hyphens, `dashCollapse` is the identity (and
likewise in skipping mode when the list does not start with a hyphen). -/
theorem dashCollapse_fix : ∀ l : List Char, List.Chain' noDDRel l →
    dashCollapse false l = l ∧
    ((∀ c, l.head? = some c → c ≠ '-') → dashCollapse true l = l) := by
  intro l
  induction l with
  | nil => intro _; exact ⟨rfl, fun _ => rfl⟩
  | cons a as ih =>
    intro hch
    rw [List.chain'_cons'] at hch
    obtain ⟨hhd, htl⟩ := hch
    obtain ⟨ihf, iht⟩ := ih htl
    constructor
    · by_cases ha : a = '-'
      · rw [dashCollapse_false_cons, if_pos ha]
        have : dashCollapse true as = as := by
          refine iht ?_
          intro c hc
          have := hhd c (by simpa using hc)
          subst ha
          exact fun hc' => this ⟨rfl, hc'⟩
        rw [this, ha]
      · rw [dashCollapse_false_cons, if_neg ha, ihf]
    · intro hhead
      have ha : a ≠ '-' := hhead a rfl
      rw [dashCollapse_true_cons, if_neg ha, ihf]

/-- Every character of a slugified string is a lowercase letter, a digit or
a hyphen. -/
theorem slugifyL_chars : ∀ (l : List Char) (c : Char),
    c ∈ slugifyL l → isSlugChar c = true := by
  intro l c hc
  unfold slugifyL at hc
  have hc1 := stripDash_subset c hc
  rcases mem_dashCollapse hc1 with h | h
  · subst h; decide
  · exact (List.mem_filter.mp h).2

theorem slugifyL_chain : ∀ l : List Char, List.Chain' noDDRel (slugifyL l) := by
  intro l
  unfold slugifyL stripDash
  have h0 := (dashCollapse_spec
    (List.filter isSlugChar (sepToDash false ((jsTrim l).map jsToLower)))).1
  have h1 : List.Chain' noDDRel
      ((dashCollapse false (List.filter isSlugChar (sepToDash false ((jsTrim l).map jsToLower)))).dropWhile (· = '-')) :=
    h0.suffix (List.dropWhile_suffix _)
  exact h1.prefix dropEnd_prefix

theorem slugifyL_head : ∀ (l : List Char) (c : Char),
    (slugifyL l).head? = some c → c ≠ '-' := by
  intro l c hc
  unfold slugifyL stripDash at hc
  have h1 := prefix_head?_eq dropEnd_prefix hc
  have h2 := head_dropWhile_not h1
  simpa using h2

theorem slugifyL_last : ∀ (l : List Char) (c : Char),
    (slugifyL l).getLast? = some c → c ≠ '-' := by
  intro l c hc
  unfold slugifyL stripDash at hc
  rw [List.getLast?_reverse] at hc
  have h2 := head_dropWhile_not hc
  simpa using h2

theorem slug_not_space {c : Char} (h : isSlugChar c = true) : jsIsSpace c = false := by
  simp only [isSlugChar, Bool.or_eq_true, Bool.and_eq_true, decide_eq_true_eq] at h
  rcases h with (h | h) | h
  · simp only [jsIsSpace, Bool.or_eq_false_iff, decide_eq_false_iff_not]
    omega
  · simp only [jsIsSpace, Bool.or_eq_false_iff, decide_eq_false_iff_not]
    omega
  · subst h; decide

theorem slug_not_sep {c : Char} (h : isSlugChar c = true) : isSepChar c = false := by
  simp only [isSlugChar, Bool.or_eq_true, Bool.and_eq_true, decide_eq_true_eq] at h
  rcases h with (h | h) | h
  · simp only [isSepChar, jsIsSpace, Bool.or_eq_false_iff, decide_eq_false_iff_not]
    omega
  · simp only [isSepChar, jsIsSpace, Bool.or_eq_false_iff, decide_eq_false_iff_not]
    omega
  · subst h; decide

theorem slug_toLower_fix {c : Char} (h : isSlugChar c = true) : jsToLower c = c := by
  simp only [isSlugChar, Bool.or_eq_true, Bool.and_eq_true, decide_eq_true_eq] at h
  unfold jsToLower
  rcases h with (h | h) | h
  · rw [if_neg (by omega)]
  · rw [if_neg (by omega)]
  · subst h; decide

theorem map_id_of {α : Type} {f : α → α} : ∀ {l : List α},
    (∀ c ∈ l, f c = c) → l.map f = l := by
  intro l
  induction l with
  | nil => intro _; rfl
  | cons a as ih =>
    intro h
    simp only [List.map_cons]
    rw [h a (List.mem_cons_self a as), ih (fun c hc => h c (List.mem_cons_of_mem _ hc))]

theorem sepToDash_id : ∀ {l : List Char},
    (∀ c ∈ l, isSepChar c = false) → sepToDash false l = l := by
  intro l
  induction l with
  | nil => intro _; rfl
  | cons a as ih =>
    intro h
    have ha := h a (List.mem_cons_self a as)
    simp only [sepToDash, ha, Bool.false_eq_true, if_false]
    rw [ih (fun c hc => h c (List.mem_cons_of_mem _ hc))]

theorem jsTrim_eq_self {l : List Char} (h : ∀ c ∈ l, jsIsSpace c = false) :
    jsTrim l = l := by
  unfold jsTrim
  have h1 : l.dropWhile jsIsSpace = l :=
    dropWhile_eq_self_of (fun c hc => h c (List.mem_of_mem_head? hc))
  rw [h1]
  have h2 : l.reverse.dropWhile jsIsSpace = l.reverse :=
    dropWhile_eq_self_of (fun c hc => h c (List.mem_reverse.mp (List.mem_of_mem_head? hc)))
  rw [h2, List.reverse_reverse]

theorem stripDash_eq_self {l : List Char}
    (hh : ∀ c, l.head? = some c → c ≠ '-')
    (hl : ∀ c, l.getLast? = some c → c ≠ '-') : stripDash l = l := by
  unfold stripDash
  have h1 : l.dropWhile (· = '-') = l := by
    refine dropWhile_eq_self_of ?_
    intro c hc
    simpa using hh c hc
  rw [h1]
  have h2 : l.reverse.dropWhile (· = '-') = l.reverse := by
    refine dropWhile_eq_self_of ?_
    intro c hc
    rw [List.head?_reverse] at hc
    simpa using hl c hc
  rw [h2, List.reverse_reverse]

theorem slugifyL_idem : ∀ l : List Char, slugifyL (slugifyL l) = slugifyL l := by
  intro l
  have hchars := slugifyL_chars l
  have hchain := slugifyL_chain l
  have hhead := slugifyL_head l
  have hlast := slugifyL_last l
  show stripDash (dashCollapse false
    (List.filter isSlugChar (sepToDash false ((jsTrim (slugifyL l)).map jsToLower)))) = slugifyL l
  rw [jsTrim_eq_self (fun c hc => slug_not_space (hchars c hc))]
  rw [map_id_of (fun c hc => slug_toLower_fix (hchars c hc))]
  rw [sepToDash_id (fun c hc => slug_not_sep (hchars c hc))]
  rw [List.filter_eq_self.mpr hchars]
  rw [(dashCollapse_fix _ hchain).1]
  exact stripDash_eq_self hhead hlast

/-- C10: for every input string, `slugify` produces only lowercase ASCII
letters, digits and hyphens, with no leading or trailing hyphen and no two
consecutive hyphens, and `slugify` is idempotent. -/
theorem c10_slugify_charset_shape_idempotent : ∀ s : String,
    (∀ c ∈ (slugify s).data, isSlugChar c = true) ∧
    (slugify s).data.head? ≠ some '-' ∧
    (slugify s).data.getLast? ≠ some '-' ∧
    List.Chain' noDDRel (slugify s).data ∧
    slugify (slugify s) = slugify s := by
  intro s
  refine ⟨slugifyL_chars s.data, ?_, ?_, slugifyL_chain s.data, ?_⟩
  · intro h
    exact slugifyL_head s.data '-' h rfl
  · intro h
    exact slugifyL_last s.data '-' h rfl
  · show (⟨slugifyL (slugifyL s.data)⟩ : String) = ⟨slugifyL s.data⟩
    rw [slugifyL_idem]

/-! ## Asset records (src/models/asset.model.js, RTDB backend)

`RawAsset` is an arbitrary JS object as it reaches `normalizeAsset`;
`NormAsset` is the shape `normalizeAsset` returns.  The fields that
`normalizeAsset` copies verbatim (`id`, `label`, `slug`, `filename`,
`disk`, `path`, `created_at`) stay optional in `NormAsset` because the
source copies them through unchanged, present or not. -/

structure RawAsset where
  id : Option String
  label : Option String
  slug : Option String
  filename : Option String
  disk : Option String
  path : Option String
  repo : Option String
  branch : Option String
  mime : Option String
  size : Option Int
  sha256 : Option String
  verify_hash : JsVal
  disposition : Option String
  visibility : Option String
  github_url : Option String
  cdn_url : Option String
  created_at : Option String
  updated_at : Option String
  deleted_at : Option String
  deriving DecidableEq, Repr

structure NormAsset where
  id : Option String
  label : Option String
  slug : Option String
  filename : Option String
  disk : Option String
  path : Option String
  repo : Option String
  branch : Option String
  mime : Option String
  size : Option Int
  sha256 : Option String
  verify_hash : Bool
  disposition : String
  visibility : String
  github_url : Option String
  cdn_url : Option String
  created_at : Option String
  updated_at : Option String
  deleted_at : Option String
  deriving DecidableEq, Repr

/-- `normalizeAsset` from the RTDB backend of asset.model.js (the non-null
input case; the `null` input case is handled by `Option.map` at every call
site, mirroring the early `return null`). -/
def normalizeAsset (a : RawAsset) : NormAsset where
  id := a.id
  label := a.label
  slug := a.slug
  filename := a.filename
  disk := a.disk
  path := a.path
  repo := a.repo
  branch := a.branch
  mime := a.mime
  size := a.size
  sha256 := a.sha256
  verify_hash := toBool a.verify_hash
  disposition := jsOrStr a.disposition "inline"
  visibility := jsOrStr a.visibility "public"
  github_url := a.github_url
  cdn_url := a.cdn_url
  created_at := a.created_at
  updated_at := a.updated_at
  deleted_at := a.deleted_at

/-- A normalized record viewed again as a plain JS object (this is what is
stored in the database and later re-read through `normalizeAsset`). -/
def rawOfNorm (n : NormAsset) : RawAsset where
  id := n.id
  label := n.label
  slug := n.slug
  filename := n.filename
  disk := n.disk
  path := n.path
  repo := n.repo
  branch := n.branch
  mime := n.mime
  size := n.size
  sha256 := n.sha256
  verify_hash := .vBool n.verify_hash
  disposition := some n.disposition
  visibility := some n.visibility
  github_url := n.github_url
  cdn_url := n.cdn_url
  created_at := n.created_at
  updated_at := n.updated_at
  deleted_at := n.deleted_at

/-- Re-normalizing a stored record: the fields this development inspects
are preserved verbatim. -/
theorem renorm_id (n : NormAsset) : (normalizeAsset (rawOfNorm n)).id = n.id := rfl

theorem renorm_slug (n : NormAsset) : (normalizeAsset (rawOfNorm n)).slug = n.slug := rfl

theorem renorm_created_at (n : NormAsset) :
    (normalizeAsset (rawOfNorm n)).created_at = n.created_at := rfl

theorem renorm_deleted_at (n : NormAsset) :
    (normalizeAsset (rawOfNorm n)).deleted_at = n.deleted_at := rfl

/-! ## Association-list primitives for the RTDB tree

RTDB paths `/assets/{id}` and `/slugs/{slug}` are key-value collections;
they are embedded as association lists with first-match lookup,
replace-in-place set, and remove-all-occurrences delete. -/

def lookupK {κ α : Type} [DecidableEq κ] : List (κ × α) → κ → Option α
  | [], _ => none
  | (k', v) :: t, k => if k' = k then some v else lookupK t k

def setK {κ α : Type} [DecidableEq κ] : List (κ × α) → κ → α → List (κ × α)
  | [], k, v => [(k, v)]
  | (k', v') :: t, k, v => if k' = k then (k, v) :: t else (k', v') :: setK t k v

def eraseK {κ α : Type} [DecidableEq κ] (l : List (κ × α)) (k : κ) : List (κ × α) :=
  l.filter (fun p => p.1 ≠ k)

theorem lookupK_setK_same {κ α : Type} [DecidableEq κ] :
    ∀ (l : List (κ × α)) (k : κ) (v : α), lookupK (setK l k v) k = some v := by
  intro l k v
  induction l with
  | nil => simp [setK, lookupK]
  | cons p t ih =>
    obtain ⟨k', v'⟩ := p
    by_cases h : k' = k
    · simp [setK, h, lookupK]
    · simp [setK, h, lookupK, ih]

theorem lookupK_setK_other {κ α : Type} [DecidableEq κ] :
    ∀ (l : List (κ × α)) (k k' : κ) (v : α), k ≠ k' →
      lookupK (setK l k v) k' = lookupK l k' := by
  intro l k k' v hne
  induction l with
  | nil => simp [setK, lookupK, hne]
  | cons p t ih =>
    obtain ⟨k0, v0⟩ := p
    by_cases h : k0 = k
    · subst h
      simp [setK, lookupK, hne]
    · simp [setK, h, lookupK, ih]

theorem eraseK_append_single {κ α : Type} [DecidableEq κ]
    (l : List (κ × α)) (k : κ) (v : α)
    (h : lookupK l k = none) : eraseK (l ++ [(k, v)]) k = l := by
  induction l with
  | nil => simp [eraseK, List.filter]
  | cons p t ih =>
    obtain ⟨k0, v0⟩ := p
    simp only [lookupK] at h
    by_cases hk : k0 = k
    · simp [hk] at h
    · rw [if_neg hk] at h
      simp only [List.cons_append, eraseK, List.filter_cons]
      rw [if_pos (by simpa using hk)]
      have := ih h
      simp only [eraseK] at this
      rw [this]

/-! ## The RTDB store (src/models/asset.model.js, RTDB backend) -/

structure Store where
  assets : List (String × NormAsset)
  slugs : List (String × String)
  deriving DecidableEq, Repr

/-- `getAssetById`: read `/assets/{id}` and normalize (a missing snapshot
value is `none`). -/
def getAssetById (st : Store) (id : String) : Option NormAsset :=
  (lookupK st.assets id).map (fun a => normalizeAsset (rawOfNorm a))

/-- `setAsset`: write `/assets/{id}`. -/
def setAsset (st : Store) (id : String) (a : NormAsset) : Store :=
  { st with assets := setK st.assets id a }

/-- `reserveSlug`: transaction on `/slugs/{slug}` that writes `{ id }` only
when the current value is null; returns whether it committed, and aborting
leaves the tree unchanged. -/
def reserveSlug (st : Store) (slug id : String) : Bool × Store :=
  match lookupK st.slugs slug with
  | none => (true, { st with slugs := st.slugs ++ [(slug, id)] })
  | some _ => (false, st)

/-- `releaseSlug`: remove `/slugs/{slug}`. -/
def releaseSlug (st : Store) (slug : String) : Store :=
  { st with slugs := eraseK st.slugs slug }

/-- `getIdBySlug`: `snap.val()?.id || null` — an empty id string is
collapsed to null by `||`. -/
def getIdBySlug (st : Store) (slug : String) : Option String :=
  match lookupK st.slugs slug with
  | some i => if i = "" then none else some i
  | none => none

/-- `fetchAllAssetsRaw`: `Object.values` of `/assets`, each normalized; the
enumeration order is the store's key order. -/
def fetchAllAssetsRaw (st : Store) : List NormAsset :=
  st.assets.map (fun p => normalizeAsset (rawOfNorm p.2))

inductive InsErr where
  | slugExists
  | setFailed
  deriving DecidableEq, Repr

/-- The record `insertAsset` builds before reserving the slug:
`normalizeAsset({ ...asset, created_at: now, updated_at: null, deleted_at: null })`. -/
def insertData (asset : RawAsset) (now : String) : NormAsset :=
  normalizeAsset
    { asset with created_at := some now, updated_at := none, deleted_at := none }

/-- `insertAsset` (RTDB backend).  `setOk` models whether the write of the
asset record at `/assets/{id}` succeeds; on failure the source releases the
slug reservation and rethrows. -/
def insertAsset (st : Store) (asset : RawAsset) (now : String) (setOk : Bool) :
    Except InsErr NormAsset × Store :=
  let data := insertData asset now
  let res := reserveSlug st (strOfOpt data.slug) (strOfOpt data.id)
  if res.1 then
    if setOk then (.ok data, setAsset res.2 (strOfOpt data.id) data)
    else (.error .setFailed, releaseSlug res.2 (strOfOpt data.slug))
  else (.error .slugExists, res.2)

/-- `findBySlug` (RTDB backend): resolve the slug index, then the record;
null for a missing index entry, a missing record, or a truthy
`deleted_at`. -/
def findBySlug (st : Store) (slug : String) : Option NormAsset :=
  match getIdBySlug st slug with
  | none => none
  | some i =>
    match getAssetById st i with
    | none => none
    | some a => if strOptTruthy a.deleted_at then none else some a

/-- `String.prototype.toLowerCase` over a whole string (ASCII range, as in
`jsToLower`). -/
def lowerStr (s : String) : String :=
  ⟨s.data.map jsToLower⟩

def prefixOfL : List Char → List Char → Bool
  | [], _ => true
  | _ :: _, [] => false
  | a :: as, b :: bs => a = b && prefixOfL as bs

def containsL (needle : List Char) : List Char → Bool
  | [] => prefixOfL needle []
  | c :: t => prefixOfL needle (c :: t) || containsL needle t

/-- `String.prototype.includes`. -/
def strContains (hay needle : String) : Bool :=
  containsL needle.data hay.data

/-- `a.label?.toLowerCase().includes(needle.toLowerCase())` — false when the
field is absent (optional chaining yields undefined, which is falsy). -/
def optIncludes (needle : String) (v : Option String) : Bool :=
  match v with
  | some s => strContains (lowerStr s) (lowerStr needle)
  | none => false

/-- `Math.max(1, Math.min(100, +limit))` as used by `recentAssets` in both
backends. -/
def clampLimit (n : Int) : Nat := (max 1 (min 100 n)).toNat

/-- Sort key of `recentAssets`: descending `created_at` with `|| ''` on the
absent case, compared with `localeCompare`. -/
def recLe (a b : NormAsset) : Prop :=
  strLe (jsOrStr b.created_at "") (jsOrStr a.created_at "") = true

instance : DecidableRel recLe := fun _ _ => inferInstanceAs (Decidable (_ = true))

instance : IsTotal NormAsset recLe :=
  ⟨fun a b => strLeL_total (jsOrStr b.created_at "").data (jsOrStr a.created_at "").data⟩

instance : IsTrans NormAsset recLe :=
  ⟨fun _ _ _ hab hbc => strLeL_trans _ _ _ hbc hab⟩

/-- `recentAssets` (RTDB backend): fetch all, keep active, apply the three
optional filters, sort by `created_at` descending, slice to the clamped
limit. -/
def recentAssets (st : Store) (label disk visibility : Option String) (limit : Int) :
    List NormAsset :=
  let l0 := (fetchAllAssetsRaw st).filter (fun a => !(strOptTruthy a.deleted_at))
  let l1 := if strOptTruthy label then l0.filter (fun a => optIncludes (label.getD "") a.label) else l0
  let l2 := if strOptTruthy disk then l1.filter (fun a => a.disk = some (disk.getD "")) else l1
  let l3 := if strOptTruthy visibility then
    l2.filter (fun a => a.visibility = visibility.getD "") else l2
  (List.insertionSort recLe l3).take (clampLimit limit)

/-- The sort-key whitelist of `listAssets`. -/
def allowedSort : List String :=
  ["created_at", "label", "slug", "disk", "visibility", "filename"]

/-- `(a[sortKey] ?? '').toString()` for the whitelisted sort keys. -/
def sortVal (sk : String) (a : NormAsset) : String :=
  if sk = "label" then a.label.getD ""
  else if sk = "slug" then a.slug.getD ""
  else if sk = "disk" then a.disk.getD ""
  else if sk = "visibility" then a.visibility
  else if sk = "filename" then a.filename.getD ""
  else a.created_at.getD ""

/-- The comparator order of `listAssets`: `dir * av.localeCompare(bv)` with
`dir = 1` for ascending and `-1` otherwise. -/
def listLe (sk : String) (asc : Bool) (a b : NormAsset) : Prop :=
  strLe (sortVal sk (if asc then a else b)) (sortVal sk (if asc then b else a)) = true

instance (sk : String) (asc : Bool) : DecidableRel (listLe sk asc) :=
  fun _ _ => inferInstanceAs (Decidable (_ = true))

/-- `Math.max(1, Math.min(100, Number(limit) || 20))`: the `|| 20` makes a
zero (or unparseable) limit fall back to the default of 20 before
clamping. -/
def effListLimit (n : Int) : Nat := (max 1 (min 100 (if n = 0 then 20 else n))).toNat

/-- `listAssets` (RTDB backend): filters, whitelist-checked sort, pagination;
returns `(items, total)`. -/
def listAssets (st : Store) (q label disk visibility : Option String)
    (includeDeleted : Bool) (sort order : String) (limit offset : Int) :
    List NormAsset × Nat :=
  let sortKey := if allowedSort.contains sort then sort else "created_at"
  let asc := decide (lowerStr order = "asc")
  let l0 := fetchAllAssetsRaw st
  let l1 := if includeDeleted then l0 else l0.filter (fun a => !(strOptTruthy a.deleted_at))
  let l2 := if strOptTruthy q then
    l1.filter (fun a =>
      optIncludes (q.getD "") a.label ||
      optIncludes (q.getD "") a.slug ||
      optIncludes (q.getD "") a.filename)
    else l1
  let l3 := if strOptTruthy label then l2.filter (fun a => optIncludes (label.getD "") a.label) else l2
  let l4 := if strOptTruthy disk then l3.filter (fun a => a.disk = some (disk.getD "")) else l3
  let l5 := if strOptTruthy visibility then
    l4.filter (fun a => a.visibility = visibility.getD "") else l4
  let sorted := List.insertionSort (listLe sortKey asc) l5
  let total := sorted.length
  let start := (max 0 offset).toNat
  ((sorted.drop start).take (effListLimit limit), total)

/-- A JS patch object: each field is either absent or carries a value of
the corresponding raw shape. -/
structure Patch where
  id : Option (Option String) := none
  label : Option (Option String) := none
  slug : Option (Option String) := none
  filename : Option (Option String) := none
  disk : Option (Option String) := none
  path : Option (Option String) := none
  repo : Option (Option String) := none
  branch : Option (Option String) := none
  mime : Option (Option String) := none
  size : Option (Option Int) := none
  sha256 : Option (Option String) := none
  verify_hash : Option JsVal := none
  disposition : Option (Option String) := none
  visibility : Option (Option String) := none
  github_url : Option (Option String) := none
  cdn_url : Option (Option String) := none
  created_at : Option (Option String) := none
  updated_at : Option (Option String) := none
  deleted_at : Option (Option String) := none
  deriving DecidableEq, Repr

/-- The object literal of `updateAsset`: spread of the current record, then
the patch, then the explicit `verify_hash` (`??`: null and undefined fall
back to the current value) and `updated_at` overrides. -/
def mergePatch (cur : NormAsset) (p : Patch) (now : String) : RawAsset :=
  let c := rawOfNorm cur
  { id := p.id.getD c.id
    label := p.label.getD c.label
    slug := p.slug.getD c.slug
    filename := p.filename.getD c.filename
    disk := p.disk.getD c.disk
    path := p.path.getD c.path
    repo := p.repo.getD c.repo
    branch := p.branch.getD c.branch
    mime := p.mime.getD c.mime
    size := p.size.getD c.size
    sha256 := p.sha256.getD c.sha256
    verify_hash :=
      match p.verify_hash with
      | some v => if v = .vNull ∨ v = .vUndef then c.verify_hash else v
      | none => c.verify_hash
    disposition := p.disposition.getD c.disposition
    visibility := p.visibility.getD c.visibility
    github_url := p.github_url.getD c.github_url
    cdn_url := p.cdn_url.getD c.cdn_url
    created_at := p.created_at.getD c.created_at
    updated_at := some now
    deleted_at := p.deleted_at.getD c.deleted_at }

/-- `updateAsset` (RTDB backend): null for a missing or soft-deleted
record; a truthy patch slug that differs from the current slug is
re-indexed (reserve the new key, then release the old one); the merged
record is normalized and written back. -/
def updateAsset (st : Store) (id : String) (p : Patch) (now : String) :
    Except InsErr (Option NormAsset) × Store :=
  match getAssetById st id with
  | none => (.ok none, st)
  | some cur =>
    if strOptTruthy cur.deleted_at then (.ok none, st)
    else
      let ps := match p.slug with | some (some v) => v | _ => ""
      let wantsSlug : Bool :=
        match p.slug with
        | some (some v) => decide (v ≠ "") && decide (cur.slug ≠ some v)
        | _ => false
      if wantsSlug then
        let r := reserveSlug st ps id
        if r.1 then
          let st2 := releaseSlug r.2 (strOfOpt cur.slug)
          let updated := normalizeAsset (mergePatch cur p now)
          (.ok (some updated), setAsset st2 id updated)
        else (.error .slugExists, r.2)
      else
        let updated := normalizeAsset (mergePatch cur p now)
        (.ok (some updated), setAsset st id updated)

/-- The field mutation `cur.deleted_at = v` before the write-back in
`softDeleteAsset` and `restoreAsset`. -/
def withDeleted (n : NormAsset) (d : Option String) : NormAsset :=
  { n with deleted_at := d }

theorem withDeleted_id (n : NormAsset) (d : Option String) : (withDeleted n d).id = n.id := rfl

theorem withDeleted_slug (n : NormAsset) (d : Option String) :
    (withDeleted n d).slug = n.slug := rfl

theorem withDeleted_created_at (n : NormAsset) (d : Option String) :
    (withDeleted n d).created_at = n.created_at := rfl

theorem withDeleted_deleted_at (n : NormAsset) (d : Option String) :
    (withDeleted n d).deleted_at = d := rfl

/-- `softDeleteAsset` (RTDB backend): false for a missing or already
deleted record, else stamp `deleted_at` and write back (the slug index is
deliberately kept). -/
def softDeleteAsset (st : Store) (id : String) (now : String) : Bool × Store :=
  match getAssetById st id with
  | none => (false, st)
  | some cur =>
    if strOptTruthy cur.deleted_at then (false, st)
    else (true, setAsset st id (withDeleted cur (some now)))

/-- `restoreAsset` (RTDB backend): false unless the record exists and is
deleted; else clear `deleted_at` and write back. -/
def restoreAsset (st : Store) (id : String) : Bool × Store :=
  match getAssetById st id with
  | none => (false, st)
  | some cur =>
    if strOptTruthy cur.deleted_at then (true, setAsset st id (withDeleted cur none))
    else (false, st)

/-- `getById` (RTDB backend): returns the record regardless of soft-delete
state. -/
def getById (st : Store) (id : String) : Option NormAsset :=
  getAssetById st id

/-! ## The flat-JSON store (src/models/asset.model.js, flat backend)

The flat backend stores the raw inserted objects in an array in a JSON
document; `insertAsset` unshifts, `findBySlug` is a linear `find` on the
slug field, `recentAssets` filters and slices without sorting and without
a `deleted_at` check. -/

def insertAssetFlat (db : List RawAsset) (asset : RawAsset) (now : String) : List RawAsset :=
  { asset with created_at := some now } :: db

def findBySlugFlat (db : List RawAsset) (slug : String) : Option RawAsset :=
  db.find? (fun a => a.slug = some slug)

def recentAssetsFlat (db : List RawAsset) (label disk visibility : Option String)
    (limit : Int) : List RawAsset :=
  let l1 := if strOptTruthy label then db.filter (fun a => optIncludes (label.getD "") a.label) else db
  let l2 := if strOptTruthy disk then l1.filter (fun a => a.disk = some (disk.getD "")) else l1
  let l3 := if strOptTruthy visibility then
    l2.filter (fun a => a.visibility = some (visibility.getD "")) else l2
  l3.take (clampLimit limit)

/-! ## GitHub service (src/services/github.service.js)

The remote repository is a state value: repository metadata plus a map
from (branch, path) to the stored content.  `getRepoInfo` failing
upstream is the `none` repository; the blob lookup before the PUT decides
whether a current `sha` accompanies the update (the optimistic-concurrency
contract), and the PUT itself is modelled as succeeding, recording the
content under the resolved branch. -/

structure GhRepoInfo where
  default_branch : String
  size : Int
  branches : List String
  contents : List ((String × String) × String)
  deriving DecidableEq, Repr

inductive GhErr where
  | repoNotFound
  | emptyRepo
  deriving DecidableEq, Repr

structure GhUploadRes where
  contentUrl : String
  sha : String
  branch : String
  deriving DecidableEq, Repr

/-- `uploadToGitHub`: resolve repository info, reject an empty repository,
resolve the branch (requested if it exists upstream, else the default
branch), then create-or-update the content on the resolved branch. -/
def uploadToGitHub (repoState : Option GhRepoInfo) (owner repoName : String)
    (branch : Option String) (path : String) (contentBase64 : String) :
    Except GhErr GhUploadRes × Option GhRepoInfo :=
  match repoState with
  | none => (.error .repoNotFound, none)
  | some info =>
    if info.size = 0 then (.error .emptyRepo, some info)
    else
      let defaultBranch := info.default_branch
      let t0 := jsOrStr branch defaultBranch
      let targetBranch := if info.branches.contains t0 then t0 else defaultBranch
      let info2 := { info with contents := setK info.contents (targetBranch, path) contentBase64 }
      (.ok { contentUrl := "https://github.com/" ++ owner ++ "/" ++ repoName ++
               "/blob/" ++ targetBranch ++ "/" ++ path,
             sha := contentBase64, branch := targetBranch }, some info2)

/-- The global replace collapsing duplicated slashes in the assembled CDN
URL: the pattern is a non-colon character followed by at least two
slashes, replaced by that character and one slash, with scanning resuming
after the replacement.  The fuel argument, instantiated with the input
length, makes the scan structurally recursive. -/
def collapseSlashes : Nat → List Char → List Char
  | 0, l => l
  | _ + 1, [] => []
  | fuel + 1, c :: cs =>
    match cs with
    | d :: e :: rest =>
      if c ≠ ':' ∧ d = '/' ∧ e = '/' then
        c :: '/' :: collapseSlashes fuel (rest.dropWhile (· = '/'))
      else c :: collapseSlashes fuel cs
    | _ => c :: cs

/-- `makeCdnUrl`: configured base (or the jsDelivr default), branch (or the
configured default branch, or `main`), owner, repo and path assembled and
slash-normalized. -/
def makeCdnUrl (cdnBase envDefaultBranch : Option String) (owner repoName : String)
    (branch : Option String) (path : String) : String :=
  let base := jsOrStr cdnBase "https://cdn.jsdelivr.net/gh"
  let b := jsOrStr branch (jsOrStr envDefaultBranch "main")
  let raw := base ++ "/" ++ owner ++ "/" ++ repoName ++ "@" ++ b ++ "/" ++ path
  ⟨collapseSlashes raw.data.length raw.data⟩

/-! ## Controller (src/controllers/assets.controller.js) -/

/-- The slug derivation shared by `registerExisting` and
`uploadGithubRegister`:
`v.slug ? slugify(v.slug) : (slugify(v.label) || nanoid(8))`, with the
random id passed in as `rand`. -/
def deriveSlug (vslug : Option String) (label : String) (rand : String) : String :=
  if strOptTruthy vslug then slugify (vslug.getD "") else jsOr (slugify label) rand

/-- Alphanumeric character (both cases), as in the extension test regex. -/
def isExtChar (c : Char) : Bool :=
  (97 ≤ c.toNat && c.toNat ≤ 122) || (65 ≤ c.toNat && c.toNat ≤ 90) ||
  (48 ≤ c.toNat && c.toNat ≤ 57)

/-- The case-insensitive anchored test used on `repo_path`: a dot followed
by one to ten alphanumerics at the end of the string. -/
def hasPathExt (p : String) : Bool :=
  let r := p.data.reverse
  let e := r.takeWhile isExtChar
  decide (1 ≤ e.length) && decide (e.length ≤ 10) && decide ((r.drop e.length).head? = some '.')

/-- Node's `extname`: the suffix of the basename from its last dot, empty
when there is no dot or the only dot leads the basename. -/
def extnameStr (s : String) : String :=
  let rb := s.data.reverse.takeWhile (· ≠ '/')
  let pre := rb.takeWhile (· ≠ '.')
  if pre.length = rb.length then ""
  else if pre.length + 1 = rb.length then ""
  else ⟨'.' :: pre.reverse⟩

/-- `(extname(filename) || '').slice(1).toLowerCase()`. -/
def extOf (filename : String) : String :=
  lowerStr ⟨(extnameStr filename).data.drop 1⟩

/-- The multipart form fields of `POST /assets/github` after zod parsing
(defaults already applied, so `branch`, `disposition`, `visibility` and
`verify_hash` are present). -/
structure GhFormInput where
  label : String
  filename : Option String
  slug : Option String
  repo_path : String
  branch : String
  disposition : String
  visibility : String
  verify_hash : Bool
  deriving DecidableEq, Repr

/-- The uploaded multipart file as multer presents it. -/
structure UploadedFile where
  originalname : String
  mimetype : String
  size : Int
  content : String
  deriving DecidableEq, Repr

inductive GhResp where
  | ok (asset : RawAsset)
  | err400 (msg : String)
  | err500
  deriving DecidableEq, Repr

/-- `uploadGithubRegister`: filename and extension guard, repo-path
extension completion, slug derivation, GitHub upload, then persistence; any
thrown error (upload or insert) is caught and answered with the generic
500.  The persisted `branch` and the `cdn_url` both use `v.branch`, the
caller's requested branch, not the branch the upload resolved to. -/
def uploadGithubRegister (allowedExt : List String) (hash : String → String)
    (ghOwner ghRepo : String) (cdnBase envDefaultBranch : Option String)
    (gh : Option GhRepoInfo) (st : Store)
    (v : GhFormInput) (file : UploadedFile)
    (randSlug newId now : String) (setOk : Bool) :
    GhResp × Store × Option GhRepoInfo :=
  let filename := jsOrStr v.filename file.originalname
  let ext := extOf filename
  if allowedExt ≠ [] ∧ ¬ allowedExt.contains ext then
    (.err400 ("File extension ." ++ ext ++ " not allowed"), st, gh)
  else
    let repoPath := if hasPathExt v.repo_path then v.repo_path else v.repo_path ++ "." ++ ext
    let slug := deriveSlug v.slug v.label randSlug
    let sha256v := hash file.content
    match uploadToGitHub gh ghOwner ghRepo (some v.branch) repoPath file.content with
    | (.error _, gh2) => (.err500, st, gh2)
    | (.ok res, gh2) =>
      let cdn := makeCdnUrl cdnBase envDefaultBranch ghOwner ghRepo (some v.branch) repoPath
      let asset : RawAsset :=
        { id := some newId
          label := some v.label
          slug := some slug
          filename := some filename
          disk := some "github"
          path := some repoPath
          repo := some (ghOwner ++ "/" ++ ghRepo)
          branch := some v.branch
          mime := some file.mimetype
          size := some file.size
          sha256 := some sha256v
          verify_hash := .vBool v.verify_hash
          disposition := some v.disposition
          visibility := some v.visibility
          github_url := some res.contentUrl
          cdn_url := some cdn
          created_at := none
          updated_at := none
          deleted_at := none }
      match insertAsset st asset now setOk with
      | (.error _, st2) => (.err500, st2, gh2)
      | (.ok _, st2) => (.ok asset, st2, gh2)

/-! ## Claims -/

deriving instance DecidableEq for Except

/-- A minimal active normalized asset used by concrete stores below. -/
def mkN (i ca : String) : NormAsset where
  id := some i
  label := none
  slug := none
  filename := none
  disk := none
  path := none
  repo := none
  branch := none
  mime := none
  size := none
  sha256 := none
  verify_hash := false
  disposition := "inline"
  visibility := "public"
  github_url := none
  cdn_url := none
  created_at := some ca
  updated_at := none
  deleted_at := none

/-! ### C1 — branch recorded by uploadGithubRegister -/

def ghFormC1 : GhFormInput where
  label := "Logo"
  filename := some "logo.png"
  slug := some "logo"
  repo_path := "img/logo.png"
  branch := "feature-x"
  disposition := "inline"
  visibility := "public"
  verify_hash := false

def fileC1 : UploadedFile where
  originalname := "logo.png"
  mimetype := "image/png"
  size := 10
  content := "QUJD"

/-- A repository whose default branch is `main` and which has no branch
called `feature-x`. -/
def repoC1 : GhRepoInfo where
  default_branch := "main"
  size := 3
  branches := ["main"]
  contents := []

def outC1 : GhResp × Store × Option GhRepoInfo :=
  uploadGithubRegister [] (fun s => s) "o" "repo" none none (some repoC1) ⟨[], []⟩
    ghFormC1 fileC1 "r1" "id1" "2024-01-01T00:00:00Z" true

/-- C1: requesting the non-existent branch `feature-x` makes the upload
fall back to the default branch `main` (the service resolves `main` and the
content is written under `main`, not under `feature-x`), but the asset
persisted by `uploadGithubRegister` records `feature-x` — the requested
branch — in its `branch` field and in its `cdn_url`, not the default
branch. -/
theorem c1_requested_branch_recorded_not_default :
    (uploadToGitHub (some repoC1) "o" "repo" (some "feature-x") "img/logo.png" "QUJD").1 =
      .ok { contentUrl := "https://github.com/o/repo/blob/main/img/logo.png",
            sha := "QUJD", branch := "main" } ∧
    (match outC1.2.2 with
     | some g => lookupK g.contents ("main", "img/logo.png")
     | none => none) = some "QUJD" ∧
    (match outC1.2.2 with
     | some g => lookupK g.contents ("feature-x", "img/logo.png")
     | none => none) = none ∧
    (lookupK outC1.2.1.assets "id1").map (fun a => a.branch) = some (some "feature-x") ∧
    (lookupK outC1.2.1.assets "id1").map (fun a => a.cdn_url) =
      some (some "https://cdn.jsdelivr.net/gh/o/repo@feature-x/img/logo.png") ∧
    (match outC1.1 with | .ok a => a.branch | _ => none) = some "feature-x" := by
  decide

/-! ### C6 — slug derivation -/

/-- C6 counterexample: a supplied slug consisting only of characters with
no slug-safe equivalent is truthy (so the supplied-slug branch is taken),
yet slugifies to the empty string; the random-identifier fallback applies
only on the label branch, so the derived slug is empty. -/
theorem c6_counterexample_supplied_slug_empty :
    strOptTruthy (some "###") = true ∧
    deriveSlug (some "###") "My Label" "abc12345" = "" := by
  decide

/-- C6 amended: when the caller supplies no (truthy) slug, the derived slug
falls back to the slugified label or, failing that, the random identifier,
and is then never empty; but when a truthy slug is supplied, the derived
slug is exactly `slugify` of it, which is empty whenever the supplied slug
has no slug-safe characters. -/
theorem c6_slug_derivation (vslug : Option String) (label rand : String)
    (hrand : rand ≠ "") :
    (strOptTruthy vslug = false → deriveSlug vslug label rand ≠ "") ∧
    (∀ s, vslug = some s → s ≠ "" → deriveSlug vslug label rand = slugify s) := by
  constructor
  · intro hf
    unfold deriveSlug
    rw [hf]
    simp only [Bool.false_eq_true, if_false]
    unfold jsOr
    by_cases hl : slugify label = ""
    · rw [if_pos hl]; exact hrand
    · rw [if_neg hl]; exact hl
  · intro s hs hne
    subst hs
    unfold deriveSlug
    have ht : strOptTruthy (some s) = true := by
      unfold strOptTruthy
      simpa using hne
    rw [ht]
    rfl

theorem c6_slug_derivation_witness :
    (deriveSlug none "My File" "abc123" ≠ "") ∧
    deriveSlug (some "Hello World") "x" "r" = slugify "Hello World" :=
  ⟨(c6_slug_derivation none "My File" "abc123" (by decide)).1 (by decide),
   (c6_slug_derivation (some "Hello World") "x" "r" (by decide)).2 "Hello World" rfl (by decide)⟩

/-! ### C2 — findBySlug on missing and soft-deleted assets -/

/-- A soft-deleted record as the flat document stores it. -/
def delRaw : RawAsset where
  id := some "i1"
  label := some "L"
  slug := some "s"
  filename := some "f.png"
  disk := some "remote"
  path := some "https://x.example/f.png"
  repo := none
  branch := none
  mime := none
  size := none
  sha256 := none
  verify_hash := .vBool false
  disposition := some "inline"
  visibility := some "public"
  github_url := none
  cdn_url := none
  created_at := some "2024-01-01T00:00:00Z"
  updated_at := none
  deleted_at := some "2024-02-01T00:00:00Z"

/-- C2 counterexample: the flat-JSON backend's `findBySlug` has no
`deleted_at` check — it returns the soft-deleted record instead of null. -/
theorem c2_counterexample_flat_returns_deleted :
    delRaw.deleted_at ≠ none ∧ findBySlugFlat [delRaw] "s" = some delRaw := by
  decide

/-- C2 amended: in the RTDB backend, `findBySlug` does return null for a
missing slug index entry, for an index entry whose record is gone, and for
a record whose `deleted_at` is set (truthy); the flat-JSON backend lacks
the soft-delete check. -/
theorem c2_rtdb_findBySlug_null_on_missing_or_deleted (st : Store) (slug : String) :
    (lookupK st.slugs slug = none → findBySlug st slug = none) ∧
    (∀ i, getIdBySlug st slug = some i → lookupK st.assets i = none →
      findBySlug st slug = none) ∧
    (∀ i a, getIdBySlug st slug = some i → lookupK st.assets i = some a →
      strOptTruthy a.deleted_at = true → findBySlug st slug = none) := by
  refine ⟨?_, ?_, ?_⟩
  · intro h
    have h2 : getIdBySlug st slug = none := by
      unfold getIdBySlug
      rw [h]
    unfold findBySlug
    rw [h2]
  · intro i hi ha
    have h2 : getAssetById st i = none := by
      unfold getAssetById
      rw [ha]
      rfl
    unfold findBySlug
    rw [hi]
    simp only [h2]
  · intro i a hi ha hdel
    have h2 : getAssetById st i = some (normalizeAsset (rawOfNorm a)) := by
      unfold getAssetById
      rw [ha]
      rfl
    have h3 : strOptTruthy (normalizeAsset (rawOfNorm a)).deleted_at = true := by
      rw [renorm_deleted_at]
      exact hdel
    unfold findBySlug
    rw [hi]
    simp only [h2, h3, if_true]

/-- A store holding one soft-deleted record reachable through the slug
index. -/
def stC2 : Store where
  assets := [("i1", { mkN "i1" "2024-01-01T00:00:00Z" with
    slug := some "s", deleted_at := some "2024-02-01T00:00:00Z" })]
  slugs := [("s", "i1")]

theorem c2_rtdb_findBySlug_witness :
    findBySlug (Store.mk [] []) "missing" = none ∧ findBySlug stC2 "s" = none :=
  ⟨(c2_rtdb_findBySlug_null_on_missing_or_deleted (Store.mk [] []) "missing").1 rfl,
   (c2_rtdb_findBySlug_null_on_missing_or_deleted stC2 "s").2.2 "i1"
     { mkN "i1" "2024-01-01T00:00:00Z" with
       slug := some "s", deleted_at := some "2024-02-01T00:00:00Z" }
     (by decide) (by decide) (by decide)⟩

/-! ### C3 — limit clamping -/

def stC3 : Store where
  assets := [("i1", mkN "i1" "2024-01-02T00:00:00Z"), ("i2", mkN "i2" "2024-01-01T00:00:00Z")]
  slugs := []

/-- C3 counterexample: in `listAssets` a limit of 0 is falsy, so
`Number(limit) || 20` replaces it by the default 20, not by 1 — on a store
with two assets, `limit=0` returns both while `limit=1` returns one. -/
theorem c3_counterexample_listAssets_limit0 :
    (listAssets stC3 none none none none false "created_at" "desc" 0 0).1.length = 2 ∧
    (listAssets stC3 none none none none false "created_at" "desc" 1 0).1.length = 1 ∧
    (listAssets stC3 none none none none false "created_at" "desc" 0 0).1 ≠
      (listAssets stC3 none none none none false "created_at" "desc" 1 0).1 := by
  decide

/-- C3 amended: the effective page size is the requested limit clamped to
[1,100] in `recentAssets` (both backends: 150 behaves as 100 and 0 behaves
as 1) and in `listAssets` for the upper bound (150 behaves as 100); but in
`listAssets` a limit of 0 falls back to the default page size 20, not to
1. -/
theorem c3_limit_clamped (st : Store) (db : List RawAsset)
    (q label disk vis : Option String) (inclDel : Bool) (sort order : String)
    (offset : Int) :
    recentAssets st label disk vis 150 = recentAssets st label disk vis 100 ∧
    recentAssets st label disk vis 0 = recentAssets st label disk vis 1 ∧
    recentAssetsFlat db label disk vis 150 = recentAssetsFlat db label disk vis 100 ∧
    recentAssetsFlat db label disk vis 0 = recentAssetsFlat db label disk vis 1 ∧
    listAssets st q label disk vis inclDel sort order 150 offset =
      listAssets st q label disk vis inclDel sort order 100 offset ∧
    listAssets st q label disk vis inclDel sort order 0 offset =
      listAssets st q label disk vis inclDel sort order 20 offset := by
  refine ⟨?_, ?_, ?_, ?_, ?_, ?_⟩
  · unfold recentAssets
    rw [show clampLimit 150 = clampLimit 100 from by decide]
  · unfold recentAssets
    rw [show clampLimit 0 = clampLimit 1 from by decide]
  · unfold recentAssetsFlat
    rw [show clampLimit 150 = clampLimit 100 from by decide]
  · unfold recentAssetsFlat
    rw [show clampLimit 0 = clampLimit 1 from by decide]
  · unfold listAssets
    rw [show effListLimit 150 = effListLimit 100 from by decide]
  · unfold listAssets
    rw [show effListLimit 0 = effListLimit 20 from by decide]

/-! ### C4 — atomicity of the RTDB insert -/

/-- C4: `insertAsset` claims the slug key only when it is absent.  When the
key is already present the insert fails with the slug-conflict error and
the store is exactly the one it started from (no asset record is written);
when the key was absent but the asset write fails, the slug reservation is
released and the store is again exactly the initial one; when everything
succeeds, both the asset record and the slug reservation are written. -/
theorem c4_insertAsset_atomic (st : Store) (asset : RawAsset) (now : String) (setOk : Bool) :
    (lookupK st.slugs (strOfOpt (insertData asset now).slug) ≠ none →
      insertAsset st asset now setOk = (.error .slugExists, st)) ∧
    (lookupK st.slugs (strOfOpt (insertData asset now).slug) = none →
      insertAsset st asset now false = (.error .setFailed, st) ∧
      insertAsset st asset now true =
        (.ok (insertData asset now),
         Store.mk
           (setK st.assets (strOfOpt (insertData asset now).id) (insertData asset now))
           (st.slugs ++
             [(strOfOpt (insertData asset now).slug, strOfOpt (insertData asset now).id)]))) := by
  constructor
  · intro h
    obtain ⟨v, hv⟩ := Option.ne_none_iff_exists'.mp h
    unfold insertAsset reserveSlug
    dsimp only
    rw [hv]
    rfl
  · intro h
    constructor
    · have he := eraseK_append_single st.slugs
        (strOfOpt (insertData asset now).slug) (strOfOpt (insertData asset now).id) h
      unfold insertAsset reserveSlug releaseSlug
      dsimp only
      rw [h]
      dsimp only
      rw [he]
      rfl
    · unfold insertAsset reserveSlug setAsset
      dsimp only
      rw [h]
      rfl

def rawC4 : RawAsset where
  id := some "idA"
  label := some "A"
  slug := some "fresh"
  filename := some "a.png"
  disk := some "github"
  path := some "a/a.png"
  repo := some "o/r"
  branch := some "main"
  mime := some "image/png"
  size := some 3
  sha256 := none
  verify_hash := .vBool false
  disposition := some "inline"
  visibility := some "public"
  github_url := none
  cdn_url := none
  created_at := none
  updated_at := none
  deleted_at := none

def stC4taken : Store where
  assets := []
  slugs := [("fresh", "someOtherId")]

theorem c4_insertAsset_atomic_witness :
    insertAsset stC4taken rawC4 "2024-01-01T00:00:00Z" true =
      (.error .slugExists, stC4taken) ∧
    insertAsset (Store.mk [] []) rawC4 "2024-01-01T00:00:00Z" false =
      (.error .setFailed, Store.mk [] []) :=
  ⟨(c4_insertAsset_atomic stC4taken rawC4 "2024-01-01T00:00:00Z" true).1 (by decide),
   ((c4_insertAsset_atomic (Store.mk [] []) rawC4 "2024-01-01T00:00:00Z" false).2 (by decide)).1⟩

/-! ### C5 — immutability of id and created_at under updateAsset -/

def stC5 : Store where
  assets := [("a1", { mkN "a1" "2024-01-01T00:00:00Z" with slug := some "s1" })]
  slugs := [("s1", "a1")]

def patchC5 : Patch := { id := some (some "evil"), created_at := some (some "1999-01-01T00:00:00Z") }

/-- C5 counterexample: `updateAsset` spreads the whole patch over the
current record with no field allow-list, so a patch carrying `id` or
`created_at` overwrites them in the stored record. -/
theorem c5_counterexample_patch_overwrites_id :
    (lookupK stC5.assets "a1").map (fun a => (a.id, a.created_at)) =
      some (some "a1", some "2024-01-01T00:00:00Z") ∧
    (lookupK (updateAsset stC5 "a1" patchC5 "t1").2.assets "a1").map
        (fun a => (a.id, a.created_at)) =
      some (some "evil", some "1999-01-01T00:00:00Z") := by
  decide

/-- C5 amended: `updateAsset` preserves the stored record's `id` and
`created_at` for every patch that does not itself carry an `id` or
`created_at` field (there is no allow-list: a patch field that is present
always wins the spread). -/
theorem c5_update_preserves_id_created_at (st : Store) (id : String) (p : Patch)
    (now : String) (hid : p.id = none) (hca : p.created_at = none) :
    ∀ c, lookupK st.assets id = some c →
    ∀ u, lookupK (updateAsset st id p now).2.assets id = some u →
      u.id = c.id ∧ u.created_at = c.created_at := by
  intro c hc u hu
  have hga : getAssetById st id = some (normalizeAsset (rawOfNorm c)) := by
    unfold getAssetById
    rw [hc]
    rfl
  have hmid : (normalizeAsset (mergePatch (normalizeAsset (rawOfNorm c)) p now)).id = c.id := by
    simp [normalizeAsset, mergePatch, rawOfNorm, hid]
  have hmca : (normalizeAsset (mergePatch (normalizeAsset (rawOfNorm c)) p now)).created_at =
      c.created_at := by
    simp [normalizeAsset, mergePatch, rawOfNorm, hca]
  have hsame : u = c → u.id = c.id ∧ u.created_at = c.created_at := by
    intro h
    rw [h]
    exact ⟨rfl, rfl⟩
  have hupd : ∀ st0 : Store,
      lookupK (setAsset st0 id (normalizeAsset (mergePatch (normalizeAsset (rawOfNorm c)) p now))).assets id = some u →
      u.id = c.id ∧ u.created_at = c.created_at := by
    intro st0 h
    unfold setAsset at h
    rw [lookupK_setK_same] at h
    have := (Option.some.inj h).symm
    subst this
    exact ⟨hmid, hmca⟩
  unfold updateAsset at hu
  rw [hga] at hu
  dsimp only at hu
  by_cases hdel : strOptTruthy (normalizeAsset (rawOfNorm c)).deleted_at = true
  · rw [if_pos hdel] at hu
    dsimp only at hu
    rw [hc] at hu
    exact hsame (Option.some.inj hu).symm
  · rw [if_neg hdel] at hu
    rcases hps : p.slug with _ | ⟨_ | ps⟩
    · rw [hps] at hu
      simp only [Bool.false_eq_true, if_false] at hu
      exact hupd st hu
    · rw [hps] at hu
      simp only [Bool.false_eq_true, if_false] at hu
      exact hupd st hu
    · rw [hps] at hu
      dsimp only at hu
      by_cases hw : (decide (ps ≠ "") &&
          decide ((normalizeAsset (rawOfNorm c)).slug ≠ some ps)) = true
      · rw [if_pos hw] at hu
        cases hres : lookupK st.slugs ps with
        | some w =>
          have hr : reserveSlug st ps id = (false, st) := by
            unfold reserveSlug
            rw [hres]
          rw [hr] at hu
          simp only [Bool.false_eq_true, if_false] at hu
          rw [hc] at hu
          exact hsame (Option.some.inj hu).symm
        | none =>
          have hr : reserveSlug st ps id =
              (true, Store.mk st.assets (st.slugs ++ [(ps, id)])) := by
            unfold reserveSlug
            rw [hres]
          rw [hr] at hu
          simp only [if_true] at hu
          exact hupd (releaseSlug (Store.mk st.assets (st.slugs ++ [(ps, id)]))
            (strOfOpt (normalizeAsset (rawOfNorm c)).slug)) hu
      · rw [if_neg hw] at hu
        exact hupd st hu

def stC5w : Store where
  assets := [("a1", mkN "a1" "2024-01-01T00:00:00Z")]
  slugs := []

def uC5w : NormAsset := { mkN "a1" "2024-01-01T00:00:00Z" with updated_at := some "t1" }

theorem c5_update_preserves_witness :
    uC5w.id = (mkN "a1" "2024-01-01T00:00:00Z").id ∧
    uC5w.created_at = (mkN "a1" "2024-01-01T00:00:00Z").created_at :=
  c5_update_preserves_id_created_at stC5w "a1" {} "t1" rfl rfl
    (mkN "a1" "2024-01-01T00:00:00Z") (by decide) uC5w (by decide)

/-! ### C7 — recentAssets: active only, newest first -/

/-- C7 counterexample: the flat-JSON backend's `recentAssets` has no
`deleted_at` filter, so a soft-deleted record appears in the result. -/
theorem c7_counterexample_flat_returns_deleted :
    recentAssetsFlat [delRaw] none none none 10 = [delRaw] ∧
    delRaw.deleted_at = some "2024-02-01T00:00:00Z" := by
  decide

theorem mem_of_mem_iteFilter {α : Type} {cnd : Prop} [Decidable cnd]
    {pf : α → Bool} {l : List α} {a : α}
    (h : a ∈ if cnd then List.filter pf l else l) : a ∈ l := by
  split at h
  · exact (List.mem_filter.mp h).1
  · exact h

/-- C7 amended: in the RTDB backend, `recentAssets` returns only records
whose `deleted_at` is not set (in the code's sense of truthiness: null or
the empty string), ordered by `created_at` newest first; the flat-JSON
backend returns the stored array order with no soft-delete filter. -/
theorem c7_rtdb_recent_active_and_sorted (st : Store)
    (label disk visibility : Option String) (limit : Int) :
    (∀ a ∈ recentAssets st label disk visibility limit,
      strOptTruthy a.deleted_at = false) ∧
    List.Pairwise recLe (recentAssets st label disk visibility limit) := by
  constructor
  · intro a ha
    unfold recentAssets at ha
    dsimp only at ha
    have h1 : a ∈ List.insertionSort recLe _ := (List.take_sublist _ _).subset ha
    have h2 := (List.perm_insertionSort recLe _).mem_iff.mp h1
    have h3 := mem_of_mem_iteFilter (mem_of_mem_iteFilter (mem_of_mem_iteFilter h2))
    have h4 := List.mem_filter.mp h3
    simpa using h4.2
  · unfold recentAssets
    dsimp only
    exact ((List.sorted_insertionSort recLe _).sublist (List.take_sublist _ _))


/-! ### C8 — soft delete then restore, through the slug index -/

theorem getAssetById_set (st : Store) (i : String) (x : NormAsset) :
    getAssetById (setAsset st i x) i = some (normalizeAsset (rawOfNorm x)) := by
  unfold getAssetById setAsset
  dsimp only
  rw [lookupK_setK_same]
  rfl

theorem getIdBySlug_set (st : Store) (i s : String) (x : NormAsset) (hi : i ≠ "")
    (hsl : lookupK st.slugs s = some i) :
    getIdBySlug (setAsset st i x) s = some i := by
  unfold getIdBySlug setAsset
  dsimp only
  rw [hsl]
  dsimp only
  rw [if_neg hi]

theorem findBySlug_set (st : Store) (i s : String) (x : NormAsset) (hi : i ≠ "")
    (hsl : lookupK st.slugs s = some i) :
    findBySlug (setAsset st i x) s =
      if strOptTruthy x.deleted_at = true then none
      else some (normalizeAsset (rawOfNorm x)) := by
  unfold findBySlug
  rw [getIdBySlug_set st i s x hi hsl]
  dsimp only
  rw [getAssetById_set st i x]
  dsimp only
  rw [renorm_deleted_at]

/-- C8: for an active asset reachable through the slug index, soft-deleting
it makes `findBySlug` return null, and restoring it afterwards makes
`findBySlug` return a record with the same `id`, `created_at` and `slug`
as before (the slug index entry is kept across the soft delete). -/
theorem c8_softdelete_restore_roundtrip (st : Store) (a : NormAsset) (i s t : String)
    (haid : a.id = some i) (hslug : a.slug = some s)
    (hi : i ≠ "") (ht : t ≠ "")
    (hsl : lookupK st.slugs s = some i)
    (has : lookupK st.assets i = some a)
    (hact : a.deleted_at = none) :
    (softDeleteAsset st i t).1 = true ∧
    findBySlug (softDeleteAsset st i t).2 s = none ∧
    (restoreAsset (softDeleteAsset st i t).2 i).1 = true ∧
    ∃ a2, findBySlug (restoreAsset (softDeleteAsset st i t).2 i).2 s = some a2 ∧
      a2.id = a.id ∧ a2.created_at = a.created_at ∧ a2.slug = a.slug := by
  have hga : getAssetById st i = some (normalizeAsset (rawOfNorm a)) := by
    unfold getAssetById
    rw [has]
    rfl
  have hdel0 : ¬ strOptTruthy (normalizeAsset (rawOfNorm a)).deleted_at = true := by
    rw [renorm_deleted_at, hact]
    simp [strOptTruthy]
  have hsd : softDeleteAsset st i t =
      (true, setAsset st i (withDeleted (normalizeAsset (rawOfNorm a)) (some t))) := by
    unfold softDeleteAsset
    rw [hga]
    dsimp only
    rw [if_neg hdel0]
  have htt : strOptTruthy (some t) = true := by
    unfold strOptTruthy
    simpa using ht
  have ht1 : strOptTruthy
      (withDeleted (normalizeAsset (rawOfNorm a)) (some t)).deleted_at = true := by
    rw [withDeleted_deleted_at]
    exact htt
  have ht1' : strOptTruthy (normalizeAsset (rawOfNorm
      (withDeleted (normalizeAsset (rawOfNorm a)) (some t)))).deleted_at = true := by
    rw [renorm_deleted_at]
    exact ht1
  have hrest : restoreAsset (setAsset st i (withDeleted (normalizeAsset (rawOfNorm a)) (some t))) i =
      (true, setAsset (setAsset st i (withDeleted (normalizeAsset (rawOfNorm a)) (some t))) i
        (withDeleted (normalizeAsset (rawOfNorm
          (withDeleted (normalizeAsset (rawOfNorm a)) (some t)))) none)) := by
    unfold restoreAsset
    rw [getAssetById_set]
    dsimp only
    rw [if_pos ht1']
  refine ⟨by rw [hsd], ?_, ?_, ?_⟩
  · rw [hsd]
    rw [findBySlug_set st i s _ hi hsl]
    rw [if_pos ht1]
  · rw [hsd]
    dsimp only
    rw [hrest]
  · rw [hsd]
    dsimp only
    rw [hrest]
    dsimp only
    rw [findBySlug_set
      (setAsset st i (withDeleted (normalizeAsset (rawOfNorm a)) (some t))) i s
      (withDeleted (normalizeAsset (rawOfNorm
        (withDeleted (normalizeAsset (rawOfNorm a)) (some t)))) none) hi hsl]
    rw [if_neg (by rw [withDeleted_deleted_at]; simp [strOptTruthy])]
    refine ⟨_, rfl, ?_, ?_, ?_⟩
    · rw [renorm_id, withDeleted_id, renorm_id, withDeleted_id, renorm_id]
    · rw [renorm_created_at, withDeleted_created_at, renorm_created_at,
        withDeleted_created_at, renorm_created_at]
    · rw [renorm_slug, withDeleted_slug, renorm_slug, withDeleted_slug, renorm_slug]

def aC8 : NormAsset := { mkN "i1" "2024-01-01T00:00:00Z" with slug := some "s1" }

def stC8 : Store where
  assets := [("i1", aC8)]
  slugs := [("s1", "i1")]

theorem c8_softdelete_restore_roundtrip_witness :
    (softDeleteAsset stC8 "i1" "2024-02-02T00:00:00Z").1 = true ∧
    findBySlug (softDeleteAsset stC8 "i1" "2024-02-02T00:00:00Z").2 "s1" = none ∧
    (restoreAsset (softDeleteAsset stC8 "i1" "2024-02-02T00:00:00Z").2 "i1").1 = true ∧
    ∃ a2, findBySlug
        (restoreAsset (softDeleteAsset stC8 "i1" "2024-02-02T00:00:00Z").2 "i1").2 "s1" =
        some a2 ∧
      a2.id = aC8.id ∧ a2.created_at = aC8.created_at ∧ a2.slug = aC8.slug :=
  c8_softdelete_restore_roundtrip stC8 aC8 "i1" "s1" "2024-02-02T00:00:00Z"
    rfl rfl (by decide) (by decide) rfl rfl rfl

/-! ### C9 — empty repository -/

/-- C9: when the target repository has no commits (`size = 0`),
`uploadToGitHub` fails with the empty-repository error before any branch
resolution or content write (the repository state is returned untouched),
and the surrounding `uploadGithubRegister` answers 500 with the asset
store unchanged — no asset is persisted. -/
theorem c9_empty_repository_no_persist (info : GhRepoInfo)
    (ghOwner ghRepo : String) (branch : Option String) (path content : String)
    (hash : String → String) (cdnBase envDefaultBranch : Option String)
    (st : Store) (v : GhFormInput) (file : UploadedFile)
    (randSlug newId now : String) (setOk : Bool)
    (hempty : info.size = 0) :
    uploadToGitHub (some info) ghOwner ghRepo branch path content =
      (.error .emptyRepo, some info) ∧
    uploadGithubRegister [] hash ghOwner ghRepo cdnBase envDefaultBranch
      (some info) st v file randSlug newId now setOk = (.err500, st, some info) := by
  have h1 : ∀ (br : Option String) (pa co : String),
      uploadToGitHub (some info) ghOwner ghRepo br pa co =
        (.error .emptyRepo, some info) := by
    intro br pa co
    unfold uploadToGitHub
    dsimp only
    rw [if_pos hempty]
  refine ⟨h1 branch path content, ?_⟩
  unfold uploadGithubRegister
  rw [if_neg (by simp)]
  dsimp only
  rw [h1]

def repoC9 : GhRepoInfo where
  default_branch := "main"
  size := 0
  branches := []
  contents := []

theorem c9_empty_repository_no_persist_witness :
    uploadToGitHub (some repoC9) "o" "repo" (some "main") "a/b.png" "QUJD" =
      (.error .emptyRepo, some repoC9) ∧
    uploadGithubRegister [] (fun s => s) "o" "repo" none none (some repoC9)
      (Store.mk [] []) ghFormC1 fileC1 "r1" "id1" "2024-01-01T00:00:00Z" true =
      (.err500, Store.mk [] [], some repoC9) :=
  c9_empty_repository_no_persist repoC9 "o" "repo" (some "main") "a/b.png" "QUJD"
    (fun s => s) none none (Store.mk [] []) ghFormC1 fileC1 "r1" "id1"
    "2024-01-01T00:00:00Z" true rfl
